import Mathlib

/-!
Verification of the Apache-Log-Visualizer core (src/logs_visualizer.py)
against its natural-language specification.

The development shallowly embeds the two parts of the program that the
spec's testable properties talk about:

1. The pure log-line parser LogVisualizer.extract_log_info, which runs
   the Python regular expression
     "(\S+) (\S+) \S+" (\d+) (\d+|-)
   with re.search over the input line.  The embedding implements the
   leftmost-match, greedy-with-backtracking semantics of that fixed
   pattern over lists of characters.  Character classes are the ASCII
   restrictions of Python's \S and \d.

2. The simulation state touched by LogVisualizer.run: the event queue
   drain loop (lines 277-295), the ball constructor (lines 156-254),
   the reap pass (lines 303-324) and the R-key reset (lines 273-275).
   Wall-clock times and 2D positions are modelled as rationals; the
   random draws of the Python code (color choice, spawn jitter) are
   threaded through as explicit parameters, since no verified property
   depends on them.  The pymunk space is modelled as the list of
   (body id, shape tag) registrations the code adds and removes.
-/

namespace LogViz

/-! ### The log-line parser -/

/-- ASCII whitespace as matched by Python's regex class \s. -/
def isPySpace (c : Char) : Bool :=
  c = ' ' || c = '\t' || c = '\n' || c = '\x0b' || c = '\x0c' || c = '\r'

/-- Character class \S of the pattern: any non-whitespace character. -/
def notSpace (c : Char) : Bool := !(isPySpace c)

/-- Backtracking driver for a greedy one-or-more quantifier: try the
split after j characters first, then shorter splits, feeding each
(consumed, remainder) pair to the continuation and returning the first
success.  Candidate lengths run from j down to 1. -/
def tryFrom (s : List Char) (f : List Char × List Char → Option α) : Nat → Option α
  | 0 => none
  | j + 1 => (f (s.take (j + 1), s.drop (j + 1))).orElse fun _ => tryFrom s f j

/-- Greedy match of cls+ at the head of s, with full backtracking into
the continuation f, exactly as the Python regex engine treats a
character-class plus followed by the rest of the pattern. -/
def matchPlusG (cls : Char → Bool) (s : List Char) (f : List Char × List Char → Option α) :
    Option α :=
  tryFrom s f (s.takeWhile cls).length

/-- Last group of the pattern, (\d+|-): a greedy digit run (nothing
follows it, so the maximal run wins) or a single dash. -/
def sizeGroup : List Char → Option (List Char)
  | [] => none
  | c :: rest =>
    if c.isDigit then some (List.takeWhile Char.isDigit (c :: rest))
    else if c = '-' then some ['-'] else none

/-- Pattern stage (\d+) space (\d+|-): greedy status digits with
backtracking, then the separating space, then the size group.  The first
two captured groups and the status run are threaded through. -/
def statusStage (g1 g2 r3 : List Char) :
    Option (List Char × List Char × List Char × List Char) :=
  matchPlusG Char.isDigit r3 fun p4 =>
    match p4.2 with
    | c5 :: r4 =>
      if c5 = ' ' then (sizeGroup r4).map fun sz => (g1, g2, p4.1, sz)
      else none
    | [] => none

/-- Pattern stage \S+ quote space, then the status stage.  The
protocol token is matched greedily but not captured. -/
def protoStage (g1 g2 r2 : List Char) :
    Option (List Char × List Char × List Char × List Char) :=
  matchPlusG notSpace r2 fun p3 =>
    match p3.2 with
    | c3 :: c4 :: r3 =>
      if c3 = '"' ∧ c4 = ' ' then statusStage g1 g2 r3 else none
    | _ => none

/-- Pattern stage (\S+) space for the path group, then the protocol
stage. -/
def pathStage (g1 r1 : List Char) :
    Option (List Char × List Char × List Char × List Char) :=
  matchPlusG notSpace r1 fun p2 =>
    match p2.2 with
    | c2 :: r2 => if c2 = ' ' then protoStage g1 p2.1 r2 else none
    | [] => none

/-- Match of the pattern suffix after the opening quote:
(\S+) space (\S+) space \S+ quote space (\d+) space (\d+|-).  Returns
the four captured groups (method, url, status, size) of the regex in
extract_log_info. -/
def matchQuoted (s : List Char) :
    Option (List Char × List Char × List Char × List Char) :=
  matchPlusG notSpace s fun p1 =>
    match p1.2 with
    | c1 :: r1 => if c1 = ' ' then pathStage p1.1 r1 else none
    | [] => none

/-- Leftmost search of re.search: try the pattern at every position; the
pattern starts with a literal quote, so only quote positions can start a
match. -/
def searchLog : List Char → Option (List Char × List Char × List Char × List Char)
  | [] => none
  | c :: rest =>
    if c = '"' then (matchQuoted rest).orElse fun _ => searchLog rest
    else searchLog rest

/-- Embedding of url.split('?')[0]: everything before the first '?'. -/
def stripQuery (u : List Char) : List Char := u.takeWhile (fun c => c ≠ '?')

/-- Embedding of Python int() on a digit-only string. -/
def digitsToNat (l : List Char) : Nat :=
  l.foldl (fun a c => 10 * a + (c.toNat - 48)) 0

/-- Structured event produced by the parser (the dict built at line 108
of the source). -/
structure LogEvent where
  method : String
  url : String
  status : Nat
  size : Nat
  deriving Repr, DecidableEq

/-- Embedding of LogVisualizer.extract_log_info (lines 97-109): run the
regex search; on a match, strip the query from the url, convert status,
and map a dash size to 0; otherwise return none.  The function is total,
mirroring the no-throw contract of the Python code (int is only applied
to digit-matched groups). -/
def extract_log_info (line : String) : Option LogEvent :=
  (searchLog line.data).map fun g =>
    { method := String.mk g.1
      url := String.mk (stripQuery g.2.1)
      status := digitsToNat g.2.2.1
      size := if g.2.2.2 = ['-'] then 0 else digitsToNat g.2.2.2 }

/-- Modelled from the spec: the recognized line format of section 6 of
the spec, a quoted token METHOD PATH PROTOCOL followed by a numeric
status code and a size that is a digit run or a dash. -/
def RecognizedFormat (line : List Char) : Prop :=
  ∃ pre mtd path proto st sz post : List Char,
    line = pre ++ '"' :: (mtd ++ ' ' :: (path ++ ' ' ::
      (proto ++ '"' :: ' ' :: (st ++ ' ' :: (sz ++ post))))) ∧
    mtd ≠ [] ∧ (∀ c ∈ mtd, notSpace c = true) ∧
    path ≠ [] ∧ (∀ c ∈ path, notSpace c = true) ∧
    proto ≠ [] ∧ (∀ c ∈ proto, notSpace c = true) ∧
    st ≠ [] ∧ (∀ c ∈ st, c.isDigit = true) ∧
    ((sz ≠ [] ∧ ∀ c ∈ sz, c.isDigit = true) ∨ sz = ['-'])

/-! ### Parser lemmas -/

/-- A maximal run: takeWhile of a run followed by a blocked remainder. -/
theorem takeWhile_run (cls : Char → Bool) (a b : List Char)
    (ha : ∀ c ∈ a, cls c = true) (hb : ∀ c, b.head? = some c → cls c = false) :
    (a ++ b).takeWhile cls = a := by
  induction a with
  | nil =>
    cases b with
    | nil => rfl
    | cons c t => simp [List.takeWhile_cons, hb c rfl]
  | cons c t ih =>
    have hc : cls c = true := ha c (by simp)
    simp only [List.cons_append, List.takeWhile_cons, hc, if_true]
    rw [ih (fun x hx => ha x (by simp [hx]))]

/-- Appending after an all-good run distributes under takeWhile. -/
theorem takeWhile_all (cls : Char → Bool) (a b : List Char)
    (ha : ∀ c ∈ a, cls c = true) :
    (a ++ b).takeWhile cls = a ++ b.takeWhile cls := by
  induction a with
  | nil => rfl
  | cons c t ih =>
    have hc : cls c = true := ha c (by simp)
    simp only [List.cons_append, List.takeWhile_cons, hc, if_true]
    rw [ih (fun x hx => ha x (by simp [hx]))]

/-- Every character of a take below the takeWhile length satisfies the
class. -/
theorem all_of_take_le (cls : Char → Bool) :
    ∀ (s : List Char) (i : Nat), i ≤ (s.takeWhile cls).length →
      ∀ c ∈ s.take i, cls c = true := by
  intro s
  induction s with
  | nil => intro i _ c hc; simp at hc
  | cons a t ih =>
    intro i hi c hc
    by_cases hcls : cls a = true
    · cases i with
      | zero => simp at hc
      | succ j =>
        simp only [List.takeWhile_cons, hcls, if_true, List.length_cons,
          Nat.succ_le_succ_iff] at hi
        simp only [List.take_succ_cons, List.mem_cons] at hc
        rcases hc with rfl | hc
        · exact hcls
        · exact ih j hi c hc
    · have hfalse : cls a = false := by simpa using hcls
      rw [List.takeWhile_cons, hfalse] at hi
      simp only [Bool.false_eq_true, if_false, List.length_nil, Nat.le_zero] at hi
      subst hi
      simp at hc

/-- Unfolding equation for the backtracking driver. -/
theorem tryFrom_succ (s : List Char) (f : List Char × List Char → Option α) (j : Nat) :
    tryFrom s f (j + 1) =
      (f (s.take (j + 1), s.drop (j + 1))).orElse fun _ => tryFrom s f j := rfl

/-- A hit on the greediest candidate is returned immediately. -/
theorem tryFrom_first (s : List Char) (f : List Char × List Char → Option α)
    (j : Nat) (v : α) (h : f (s.take (j + 1), s.drop (j + 1)) = some v) :
    tryFrom s f (j + 1) = some v := by
  rw [tryFrom_succ, h]; rfl

/-- Soundness: a successful backtracking run used one of the candidate
splits. -/
theorem tryFrom_sound (s : List Char) (f : List Char × List Char → Option α) :
    ∀ (j : Nat) (v : α), tryFrom s f j = some v →
      ∃ i, 1 ≤ i ∧ i ≤ j ∧ f (s.take i, s.drop i) = some v := by
  intro j
  induction j with
  | zero => intro v h; exact absurd h (by simp [tryFrom])
  | succ k ih =>
    intro v h
    rw [tryFrom_succ] at h
    cases hf : f (s.take (k + 1), s.drop (k + 1)) with
    | some w =>
      rw [hf] at h
      simp only [Option.orElse] at h
      exact ⟨k + 1, Nat.succ_le_succ (Nat.zero_le k), Nat.le_refl _, by
        rw [hf, ← h]⟩
    | none =>
      rw [hf] at h
      simp only [Option.orElse] at h
      obtain ⟨i, h1, h2, h3⟩ := ih v h
      exact ⟨i, h1, Nat.le_succ_of_le h2, h3⟩

/-- Completeness: if any candidate split succeeds, the backtracking run
succeeds. -/
theorem tryFrom_complete (s : List Char) (f : List Char × List Char → Option α) :
    ∀ (j i : Nat), 1 ≤ i → i ≤ j → (f (s.take i, s.drop i)).isSome →
      (tryFrom s f j).isSome := by
  intro j
  induction j with
  | zero => intro i h1 h2 _; omega
  | succ k ih =>
    intro i h1 h2 h3
    rw [tryFrom_succ]
    cases hf : f (s.take (k + 1), s.drop (k + 1)) with
    | some w => simp [Option.orElse]
    | none =>
      simp only [Option.orElse, Option.isSome]
      rcases Nat.lt_or_ge i (k + 1) with hlt | hge
      · exact ih i h1 (by omega) h3
      · have : i = k + 1 := by omega
        subst this
        rw [hf] at h3
        simp at h3

/-- First-candidate hit for a greedy plus whose run is exactly the
consumed token. -/
theorem matchPlusG_first (cls : Char → Bool) (a b : List Char)
    (f : List Char × List Char → Option α) (v : α)
    (ha : a ≠ []) (hall : ∀ c ∈ a, cls c = true)
    (hb : ∀ c, b.head? = some c → cls c = false)
    (hf : f (a, b) = some v) :
    matchPlusG cls (a ++ b) f = some v := by
  unfold matchPlusG
  rw [takeWhile_run cls a b hall hb]
  obtain ⟨n, hn⟩ : ∃ n, a.length = n + 1 :=
    ⟨a.length - 1, (Nat.succ_pred_eq_of_pos (List.length_pos.mpr ha)).symm⟩
  rw [hn]
  apply tryFrom_first
  rw [← hn, List.take_left, List.drop_left]
  exact hf

/-- Second-candidate hit: the run extends one class character past the
intended token; the greediest candidate fails and the next one wins.
This is the backtracking used by the protocol token, whose run also
swallows the closing quote. -/
theorem matchPlusG_second (cls : Char → Bool) (a : List Char) (x : Char)
    (b : List Char) (f : List Char × List Char → Option α) (v : α)
    (ha : a ≠ []) (hall : ∀ c ∈ a, cls c = true) (hx : cls x = true)
    (hb : ∀ c, b.head? = some c → cls c = false)
    (h1 : f (a ++ [x], b) = none)
    (hf : f (a, x :: b) = some v) :
    matchPlusG cls (a ++ x :: b) f = some v := by
  unfold matchPlusG
  have hsplit : a ++ x :: b = (a ++ [x]) ++ b := by simp
  rw [hsplit, takeWhile_run cls (a ++ [x]) b
    (by intro c hc; rcases List.mem_append.mp hc with h | h
        · exact hall c h
        · simp at h; subst h; exact hx) hb]
  have hlen : (a ++ [x]).length = a.length + 1 := by simp
  rw [hlen]
  rw [tryFrom_succ]
  have htake1 : ((a ++ [x]) ++ b).take (a.length + 1) = a ++ [x] := by
    have := List.take_left (a ++ [x]) b
    rwa [hlen] at this
  have hdrop1 : ((a ++ [x]) ++ b).drop (a.length + 1) = b := by
    have := List.drop_left (a ++ [x]) b
    rwa [hlen] at this
  rw [htake1, hdrop1, h1]
  simp only [Option.orElse]
  obtain ⟨n, hn⟩ : ∃ n, a.length = n + 1 :=
    ⟨a.length - 1, (Nat.succ_pred_eq_of_pos (List.length_pos.mpr ha)).symm⟩
  rw [hn]
  apply tryFrom_first
  have hre : (a ++ [x]) ++ b = a ++ x :: b := by simp
  have htake2 : ((a ++ [x]) ++ b).take a.length = a := by
    rw [hre]; exact List.take_left a (x :: b)
  have hdrop2 : ((a ++ [x]) ++ b).drop a.length = x :: b := by
    rw [hre]; exact List.drop_left a (x :: b)
  rw [← hn, htake2, hdrop2]
  exact hf

/-- Soundness of the greedy plus: success means some nonempty all-class
consumed token and a successful continuation. -/
theorem matchPlusG_sound (cls : Char → Bool) (s : List Char)
    (f : List Char × List Char → Option α) (v : α)
    (h : matchPlusG cls s f = some v) :
    ∃ a b, s = a ++ b ∧ a ≠ [] ∧ (∀ c ∈ a, cls c = true) ∧ f (a, b) = some v := by
  unfold matchPlusG at h
  obtain ⟨i, h1, h2, h3⟩ := tryFrom_sound s f _ v h
  refine ⟨s.take i, s.drop i, (List.take_append_drop i s).symm, ?_, ?_, h3⟩
  · have hi : i ≤ s.length :=
      Nat.le_trans h2 (by simpa using (List.takeWhile_sublist cls).length_le)
    intro hnil
    have : (s.take i).length = i := by simp [Nat.min_eq_left hi]
    rw [hnil] at this
    simp at this
    omega
  · exact all_of_take_le cls s i h2

/-- Completeness of the greedy plus: a valid split into a nonempty
all-class token and a successful continuation makes the match
succeed. -/
theorem matchPlusG_complete (cls : Char → Bool) (a b : List Char)
    (f : List Char × List Char → Option α)
    (ha : a ≠ []) (hall : ∀ c ∈ a, cls c = true)
    (hf : (f (a, b)).isSome) :
    (matchPlusG cls (a ++ b) f).isSome := by
  unfold matchPlusG
  apply tryFrom_complete (a ++ b) f _ a.length
    (Nat.succ_le_of_lt (List.length_pos.mpr ha) |>.trans (Nat.le_refl _))
  · rw [takeWhile_all cls a b hall]
    simp
  · rw [List.take_left, List.drop_left]
    exact hf

/-- Evaluation of the size group on a canonical size token followed by
a non-digit remainder. -/
theorem sizeGroup_token (sz post : List Char)
    (hsz : (sz ≠ [] ∧ ∀ c ∈ sz, c.isDigit = true) ∨ sz = ['-'])
    (hpost : ∀ c, post.head? = some c → c.isDigit = false) :
    sizeGroup (sz ++ post) = some sz := by
  rcases hsz with ⟨hne, hdig⟩ | rfl
  · obtain ⟨d, ds, rfl⟩ := List.exists_cons_of_ne_nil hne
    have hd : d.isDigit = true := hdig d (by simp)
    show sizeGroup (d :: (ds ++ post)) = _
    simp only [sizeGroup, hd, if_true]
    congr 1
    rw [← List.cons_append]
    exact takeWhile_run Char.isDigit (d :: ds) post hdig hpost
  · show sizeGroup ('-' :: post) = _
    simp [sizeGroup]

/-- Status stage on a canonical status and size token. -/
theorem statusStage_pos (g1 g2 st sz post : List Char)
    (hst : st ≠ []) (hstd : ∀ c ∈ st, c.isDigit = true)
    (hsz : (sz ≠ [] ∧ ∀ c ∈ sz, c.isDigit = true) ∨ sz = ['-'])
    (hpost : ∀ c, post.head? = some c → c.isDigit = false) :
    statusStage g1 g2 (st ++ ' ' :: (sz ++ post)) = some (g1, g2, st, sz) := by
  unfold statusStage
  apply matchPlusG_first Char.isDigit st (' ' :: (sz ++ post)) _ _ hst hstd
  · intro c hc
    simp only [List.head?_cons, Option.some.injEq] at hc
    subst hc; decide
  · show (if (' ' : Char) = ' ' then
        (sizeGroup (sz ++ post)).map fun sz' => (g1, g2, st, sz') else none) = _
    rw [if_pos rfl, sizeGroup_token sz post hsz hpost]
    rfl

/-- Protocol stage on a canonical protocol token: the greedy run also
swallows the closing quote, and one backtracking step recovers it. -/
theorem protoStage_pos (g1 g2 proto st sz post : List Char)
    (hp : proto ≠ []) (hpn : ∀ c ∈ proto, notSpace c = true)
    (hst : st ≠ []) (hstd : ∀ c ∈ st, c.isDigit = true)
    (hsz : (sz ≠ [] ∧ ∀ c ∈ sz, c.isDigit = true) ∨ sz = ['-'])
    (hpost : ∀ c, post.head? = some c → c.isDigit = false) :
    protoStage g1 g2 (proto ++ '"' :: ' ' :: (st ++ ' ' :: (sz ++ post))) =
      some (g1, g2, st, sz) := by
  unfold protoStage
  obtain ⟨s0, st', rfl⟩ := List.exists_cons_of_ne_nil hst
  apply matchPlusG_second notSpace proto '"'
    (' ' :: ((s0 :: st') ++ ' ' :: (sz ++ post))) _ _ hp hpn (by decide)
  · intro c hc
    simp only [List.head?_cons, Option.some.injEq] at hc
    subst hc; decide
  · show (if (' ' : Char) = '"' ∧ (s0 : Char) = ' ' then
        statusStage g1 g2 (st' ++ ' ' :: (sz ++ post)) else none) = none
    rw [if_neg]
    rintro ⟨h, -⟩
    exact absurd h (by decide)
  · show (if ('"' : Char) = '"' ∧ (' ' : Char) = ' ' then
        statusStage g1 g2 ((s0 :: st') ++ ' ' :: (sz ++ post)) else none) = _
    rw [if_pos ⟨rfl, rfl⟩]
    exact statusStage_pos g1 g2 (s0 :: st') sz post hst hstd hsz hpost

/-- Path stage on a canonical decomposition. -/
theorem pathStage_pos (g1 path proto st sz post : List Char)
    (hpa : path ≠ []) (hpan : ∀ c ∈ path, notSpace c = true)
    (hp : proto ≠ []) (hpn : ∀ c ∈ proto, notSpace c = true)
    (hst : st ≠ []) (hstd : ∀ c ∈ st, c.isDigit = true)
    (hsz : (sz ≠ [] ∧ ∀ c ∈ sz, c.isDigit = true) ∨ sz = ['-'])
    (hpost : ∀ c, post.head? = some c → c.isDigit = false) :
    pathStage g1
      (path ++ ' ' :: (proto ++ '"' :: ' ' :: (st ++ ' ' :: (sz ++ post)))) =
      some (g1, path, st, sz) := by
  unfold pathStage
  apply matchPlusG_first notSpace path
    (' ' :: (proto ++ '"' :: ' ' :: (st ++ ' ' :: (sz ++ post)))) _ _ hpa hpan
  · intro c hc
    simp only [List.head?_cons, Option.some.injEq] at hc
    subst hc; decide
  · show (if (' ' : Char) = ' ' then
        protoStage g1 path (proto ++ '"' :: ' ' :: (st ++ ' ' :: (sz ++ post)))
      else none) = _
    rw [if_pos rfl]
    exact protoStage_pos g1 path proto st sz post hp hpn hst hstd hsz hpost

/-- Full quoted-token match on a canonical decomposition: the four
captured groups are exactly the canonical tokens. -/
theorem matchQuoted_pos (mtd path proto st sz post : List Char)
    (hm : mtd ≠ []) (hmn : ∀ c ∈ mtd, notSpace c = true)
    (hpa : path ≠ []) (hpan : ∀ c ∈ path, notSpace c = true)
    (hp : proto ≠ []) (hpn : ∀ c ∈ proto, notSpace c = true)
    (hst : st ≠ []) (hstd : ∀ c ∈ st, c.isDigit = true)
    (hsz : (sz ≠ [] ∧ ∀ c ∈ sz, c.isDigit = true) ∨ sz = ['-'])
    (hpost : ∀ c, post.head? = some c → c.isDigit = false) :
    matchQuoted
      (mtd ++ ' ' :: (path ++ ' ' ::
        (proto ++ '"' :: ' ' :: (st ++ ' ' :: (sz ++ post))))) =
      some (mtd, path, st, sz) := by
  unfold matchQuoted
  apply matchPlusG_first notSpace mtd
    (' ' :: (path ++ ' ' :: (proto ++ '"' :: ' ' :: (st ++ ' ' :: (sz ++ post)))))
    _ _ hm hmn
  · intro c hc
    simp only [List.head?_cons, Option.some.injEq] at hc
    subst hc; decide
  · show (if (' ' : Char) = ' ' then
        pathStage mtd
          (path ++ ' ' :: (proto ++ '"' :: ' ' :: (st ++ ' ' :: (sz ++ post))))
      else none) = _
    rw [if_pos rfl]
    exact pathStage_pos mtd path proto st sz post hpa hpan hp hpn hst hstd hsz hpost

/-- Soundness of the size group: success decomposes the remainder into
the captured token and a suffix. -/
theorem sizeGroup_sound (r sz : List Char) (h : sizeGroup r = some sz) :
    ∃ post, r = sz ++ post ∧
      ((sz ≠ [] ∧ ∀ c ∈ sz, c.isDigit = true) ∨ sz = ['-']) := by
  cases r with
  | nil => exact Option.noConfusion h
  | cons c rest =>
    by_cases hd : c.isDigit = true
    · replace h : some (List.takeWhile Char.isDigit (c :: rest)) = some sz := by
        simpa [sizeGroup, hd] using h
      obtain rfl := Option.some.injEq _ _ ▸ h
      refine ⟨(c :: rest).dropWhile Char.isDigit,
        (List.takeWhile_append_dropWhile Char.isDigit (c :: rest)).symm,
        Or.inl ⟨?_, ?_⟩⟩
      · simp [List.takeWhile_cons, hd]
      · intro x hx
        exact List.mem_takeWhile_imp hx
    · by_cases hdash : c = '-'
      · subst hdash
        replace h : some ['-'] = some sz := by simpa [sizeGroup, hd] using h
        obtain rfl := Option.some.injEq _ _ ▸ h
        exact ⟨rest, rfl, Or.inr rfl⟩
      · simp [sizeGroup, hd, hdash] at h

/-- Soundness of the status stage. -/
theorem statusStage_sound (g1 g2 r : List Char)
    (v : List Char × List Char × List Char × List Char)
    (h : statusStage g1 g2 r = some v) :
    ∃ st sz post, r = st ++ ' ' :: (sz ++ post) ∧
      st ≠ [] ∧ (∀ c ∈ st, c.isDigit = true) ∧
      ((sz ≠ [] ∧ ∀ c ∈ sz, c.isDigit = true) ∨ sz = ['-']) ∧
      v = (g1, g2, st, sz) := by
  unfold statusStage at h
  obtain ⟨a, b, rfl, hane, hdig, hf⟩ := matchPlusG_sound _ _ _ _ h
  cases b with
  | nil => exact Option.noConfusion hf
  | cons c5 r4 =>
    replace hf : (if c5 = ' ' then
        (sizeGroup r4).map (fun sz => (g1, g2, a, sz)) else none) = some v := hf
    by_cases hc : c5 = ' '
    · subst hc
      rw [if_pos rfl] at hf
      obtain ⟨sz, hsz, hv⟩ := Option.map_eq_some'.mp hf
      obtain ⟨post, rfl, hszc⟩ := sizeGroup_sound r4 sz hsz
      exact ⟨a, sz, post, rfl, hane, hdig, hszc, hv.symm⟩
    · rw [if_neg hc] at hf
      exact Option.noConfusion hf

/-- Soundness of the protocol stage. -/
theorem protoStage_sound (g1 g2 r : List Char)
    (v : List Char × List Char × List Char × List Char)
    (h : protoStage g1 g2 r = some v) :
    ∃ proto st sz post,
      r = proto ++ '"' :: ' ' :: (st ++ ' ' :: (sz ++ post)) ∧
      proto ≠ [] ∧ (∀ c ∈ proto, notSpace c = true) ∧
      st ≠ [] ∧ (∀ c ∈ st, c.isDigit = true) ∧
      ((sz ≠ [] ∧ ∀ c ∈ sz, c.isDigit = true) ∨ sz = ['-']) ∧
      v = (g1, g2, st, sz) := by
  unfold protoStage at h
  obtain ⟨a, b, rfl, hane, hns, hf⟩ := matchPlusG_sound _ _ _ _ h
  match b with
  | [] => exact Option.noConfusion hf
  | [c3] => exact Option.noConfusion hf
  | c3 :: c4 :: r3 =>
    replace hf : (if c3 = '"' ∧ c4 = ' ' then statusStage g1 g2 r3 else none) =
        some v := hf
    by_cases hc : c3 = '"' ∧ c4 = ' '
    · obtain ⟨rfl, rfl⟩ := hc
      rw [if_pos ⟨rfl, rfl⟩] at hf
      obtain ⟨st, sz, post, rfl, h1, h2, h3, h4⟩ := statusStage_sound g1 g2 r3 v hf
      exact ⟨a, st, sz, post, rfl, hane, hns, h1, h2, h3, h4⟩
    · rw [if_neg hc] at hf
      exact Option.noConfusion hf

/-- Soundness of the path stage. -/
theorem pathStage_sound (g1 r : List Char)
    (v : List Char × List Char × List Char × List Char)
    (h : pathStage g1 r = some v) :
    ∃ path proto st sz post,
      r = path ++ ' ' :: (proto ++ '"' :: ' ' :: (st ++ ' ' :: (sz ++ post))) ∧
      path ≠ [] ∧ (∀ c ∈ path, notSpace c = true) ∧
      proto ≠ [] ∧ (∀ c ∈ proto, notSpace c = true) ∧
      st ≠ [] ∧ (∀ c ∈ st, c.isDigit = true) ∧
      ((sz ≠ [] ∧ ∀ c ∈ sz, c.isDigit = true) ∨ sz = ['-']) ∧
      v = (g1, path, st, sz) := by
  unfold pathStage at h
  obtain ⟨a, b, rfl, hane, hns, hf⟩ := matchPlusG_sound _ _ _ _ h
  cases b with
  | nil => exact Option.noConfusion hf
  | cons c2 r2 =>
    replace hf : (if c2 = ' ' then protoStage g1 a r2 else none) = some v := hf
    by_cases hc : c2 = ' '
    · subst hc
      rw [if_pos rfl] at hf
      obtain ⟨proto, st, sz, post, rfl, h1, h2, h3, h4, h5, h6⟩ :=
        protoStage_sound g1 a r2 v hf
      exact ⟨a, proto, st, sz, post, rfl, hane, hns, h1, h2, h3, h4, h5, h6⟩
    · rw [if_neg hc] at hf
      exact Option.noConfusion hf

/-- Soundness of the quoted-token match: success decomposes the string
after the quote into the five tokens of the recognized format, and the
captured groups are those tokens. -/
theorem matchQuoted_sound (r : List Char)
    (v : List Char × List Char × List Char × List Char)
    (h : matchQuoted r = some v) :
    ∃ mtd path proto st sz post,
      r = mtd ++ ' ' :: (path ++ ' ' ::
        (proto ++ '"' :: ' ' :: (st ++ ' ' :: (sz ++ post)))) ∧
      mtd ≠ [] ∧ (∀ c ∈ mtd, notSpace c = true) ∧
      path ≠ [] ∧ (∀ c ∈ path, notSpace c = true) ∧
      proto ≠ [] ∧ (∀ c ∈ proto, notSpace c = true) ∧
      st ≠ [] ∧ (∀ c ∈ st, c.isDigit = true) ∧
      ((sz ≠ [] ∧ ∀ c ∈ sz, c.isDigit = true) ∨ sz = ['-']) ∧
      v = (mtd, path, st, sz) := by
  unfold matchQuoted at h
  obtain ⟨a, b, rfl, hane, hns, hf⟩ := matchPlusG_sound _ _ _ _ h
  cases b with
  | nil => exact Option.noConfusion hf
  | cons c1 r1 =>
    replace hf : (if c1 = ' ' then pathStage a r1 else none) = some v := hf
    by_cases hc : c1 = ' '
    · subst hc
      rw [if_pos rfl] at hf
      obtain ⟨path, proto, st, sz, post, rfl, h1, h2, h3, h4, h5, h6, h7, h8⟩ :=
        pathStage_sound a r1 v hf
      exact ⟨a, path, proto, st, sz, post, rfl, hane, hns,
        h1, h2, h3, h4, h5, h6, h7, h8⟩
    · rw [if_neg hc] at hf
      exact Option.noConfusion hf

/-- The size group succeeds on any size token, whatever follows it. -/
theorem sizeGroup_isSome (sz post : List Char)
    (hsz : (sz ≠ [] ∧ ∀ c ∈ sz, c.isDigit = true) ∨ sz = ['-']) :
    (sizeGroup (sz ++ post)).isSome := by
  rcases hsz with ⟨hne, hdig⟩ | rfl
  · obtain ⟨d, ds, rfl⟩ := List.exists_cons_of_ne_nil hne
    have hd : d.isDigit = true := hdig d (by simp)
    show (sizeGroup (d :: (ds ++ post))).isSome
    simp [sizeGroup, hd]
  · show (sizeGroup ('-' :: post)).isSome
    simp [sizeGroup]

/-- The status stage succeeds on any decomposition into tokens of the
recognized format. -/
theorem statusStage_isSome (g1 g2 st sz post : List Char)
    (hst : st ≠ []) (hstd : ∀ c ∈ st, c.isDigit = true)
    (hsz : (sz ≠ [] ∧ ∀ c ∈ sz, c.isDigit = true) ∨ sz = ['-']) :
    (statusStage g1 g2 (st ++ ' ' :: (sz ++ post))).isSome := by
  unfold statusStage
  apply matchPlusG_complete Char.isDigit st (' ' :: (sz ++ post)) _ hst hstd
  show (if (' ' : Char) = ' ' then
      (sizeGroup (sz ++ post)).map fun sz' => (g1, g2, st, sz') else none).isSome
  rw [if_pos rfl]
  simpa using sizeGroup_isSome sz post hsz

/-- The protocol stage succeeds on any decomposition into tokens of the
recognized format. -/
theorem protoStage_isSome (g1 g2 proto st sz post : List Char)
    (hp : proto ≠ []) (hpn : ∀ c ∈ proto, notSpace c = true)
    (hst : st ≠ []) (hstd : ∀ c ∈ st, c.isDigit = true)
    (hsz : (sz ≠ [] ∧ ∀ c ∈ sz, c.isDigit = true) ∨ sz = ['-']) :
    (protoStage g1 g2
      (proto ++ '"' :: ' ' :: (st ++ ' ' :: (sz ++ post)))).isSome := by
  unfold protoStage
  apply matchPlusG_complete notSpace proto
    ('"' :: ' ' :: (st ++ ' ' :: (sz ++ post))) _ hp hpn
  show (if ('"' : Char) = '"' ∧ (' ' : Char) = ' ' then
      statusStage g1 g2 (st ++ ' ' :: (sz ++ post)) else none).isSome
  rw [if_pos ⟨rfl, rfl⟩]
  exact statusStage_isSome g1 g2 st sz post hst hstd hsz

/-- The path stage succeeds on any decomposition into tokens of the
recognized format. -/
theorem pathStage_isSome (g1 path proto st sz post : List Char)
    (hpa : path ≠ []) (hpan : ∀ c ∈ path, notSpace c = true)
    (hp : proto ≠ []) (hpn : ∀ c ∈ proto, notSpace c = true)
    (hst : st ≠ []) (hstd : ∀ c ∈ st, c.isDigit = true)
    (hsz : (sz ≠ [] ∧ ∀ c ∈ sz, c.isDigit = true) ∨ sz = ['-']) :
    (pathStage g1
      (path ++ ' ' :: (proto ++ '"' :: ' ' :: (st ++ ' ' :: (sz ++ post))))).isSome := by
  unfold pathStage
  apply matchPlusG_complete notSpace path
    (' ' :: (proto ++ '"' :: ' ' :: (st ++ ' ' :: (sz ++ post)))) _ hpa hpan
  show (if (' ' : Char) = ' ' then
      protoStage g1 path (proto ++ '"' :: ' ' :: (st ++ ' ' :: (sz ++ post)))
    else none).isSome
  rw [if_pos rfl]
  exact protoStage_isSome g1 path proto st sz post hp hpn hst hstd hsz

/-- The quoted-token match succeeds on any decomposition into tokens of
the recognized format. -/
theorem matchQuoted_isSome (mtd path proto st sz post : List Char)
    (hm : mtd ≠ []) (hmn : ∀ c ∈ mtd, notSpace c = true)
    (hpa : path ≠ []) (hpan : ∀ c ∈ path, notSpace c = true)
    (hp : proto ≠ []) (hpn : ∀ c ∈ proto, notSpace c = true)
    (hst : st ≠ []) (hstd : ∀ c ∈ st, c.isDigit = true)
    (hsz : (sz ≠ [] ∧ ∀ c ∈ sz, c.isDigit = true) ∨ sz = ['-']) :
    (matchQuoted (mtd ++ ' ' :: (path ++ ' ' ::
      (proto ++ '"' :: ' ' :: (st ++ ' ' :: (sz ++ post)))))).isSome := by
  unfold matchQuoted
  apply matchPlusG_complete notSpace mtd
    (' ' :: (path ++ ' ' :: (proto ++ '"' :: ' ' :: (st ++ ' ' :: (sz ++ post)))))
    _ hm hmn
  show (if (' ' : Char) = ' ' then
      pathStage mtd
        (path ++ ' ' :: (proto ++ '"' :: ' ' :: (st ++ ' ' :: (sz ++ post))))
    else none).isSome
  rw [if_pos rfl]
  exact pathStage_isSome mtd path proto st sz post hpa hpan hp hpn hst hstd hsz

/-- Positions before any quote are skipped by the search. -/
theorem searchLog_skip (pre t : List Char) (h : ∀ c ∈ pre, c ≠ '"') :
    searchLog (pre ++ t) = searchLog t := by
  induction pre with
  | nil => rfl
  | cons c p ih =>
    show searchLog (c :: (p ++ t)) = _
    rw [searchLog, if_neg (h c (by simp))]
    exact ih (fun x hx => h x (by simp [hx]))

/-- Soundness of the search: success locates a quote and a successful
quoted-token match after it. -/
theorem searchLog_sound (s : List Char)
    (v : List Char × List Char × List Char × List Char)
    (h : searchLog s = some v) :
    ∃ pre rest, s = pre ++ '"' :: rest ∧ matchQuoted rest = some v := by
  induction s with
  | nil => exact Option.noConfusion h
  | cons c t ih =>
    rw [searchLog] at h
    by_cases hc : c = '"'
    · subst hc
      rw [if_pos rfl] at h
      cases hm : matchQuoted t with
      | some w =>
        rw [hm] at h
        simp only [Option.orElse] at h
        exact ⟨[], t, rfl, by rw [hm, ← h]⟩
      | none =>
        rw [hm] at h
        simp only [Option.orElse] at h
        obtain ⟨pre, rest, rfl, hq⟩ := ih h
        exact ⟨'"' :: pre, rest, rfl, hq⟩
    · rw [if_neg hc] at h
      obtain ⟨pre, rest, rfl, hq⟩ := ih h
      exact ⟨c :: pre, rest, rfl, hq⟩

/-- Completeness of the search: a successful quoted-token match
anywhere in the line makes the search succeed. -/
theorem searchLog_isSome (pre rest : List Char)
    (h : (matchQuoted rest).isSome) :
    (searchLog (pre ++ '"' :: rest)).isSome := by
  induction pre with
  | nil =>
    rw [List.nil_append, searchLog, if_pos rfl]
    cases hm : matchQuoted rest with
    | some w => simp [Option.orElse]
    | none => rw [hm] at h; simp at h
  | cons c p ih =>
    show (searchLog (c :: (p ++ '"' :: rest))).isSome
    rw [searchLog]
    by_cases hc : c = '"'
    · rw [if_pos hc]
      cases hm : matchQuoted (p ++ '"' :: rest) with
      | some w => simp [Option.orElse]
      | none => simpa [Option.orElse] using ih
    · rw [if_neg hc]
      exact ih

/-- C1: extract_log_info succeeds exactly on lines containing the
recognized format (so every non-conforming line yields no match, and the
total Lean function mirrors the no-throw contract), and on a line whose
decomposition is canonical (no quote before the token, no digit directly
after the size field) it returns the event with that method, the
query-stripped path, the integer status, and the size with the dash
placeholder mapped to 0. -/
theorem extract_log_info_correct :
    (∀ line : String, (extract_log_info line).isSome ↔ RecognizedFormat line.data) ∧
    (∀ pre mtd path proto st sz post : List Char,
      (∀ c ∈ pre, c ≠ '"') →
      mtd ≠ [] → (∀ c ∈ mtd, notSpace c = true) →
      path ≠ [] → (∀ c ∈ path, notSpace c = true) →
      proto ≠ [] → (∀ c ∈ proto, notSpace c = true) →
      st ≠ [] → (∀ c ∈ st, c.isDigit = true) →
      ((sz ≠ [] ∧ ∀ c ∈ sz, c.isDigit = true) ∨ sz = ['-']) →
      (∀ c, post.head? = some c → c.isDigit = false) →
      extract_log_info (String.mk (pre ++ '"' :: (mtd ++ ' ' :: (path ++ ' ' ::
          (proto ++ '"' :: ' ' :: (st ++ ' ' :: (sz ++ post))))))) =
        some { method := String.mk mtd, url := String.mk (stripQuery path),
               status := digitsToNat st,
               size := if sz = ['-'] then 0 else digitsToNat sz }) := by
  constructor
  · intro line
    constructor
    · intro h
      obtain ⟨g, hg⟩ := Option.isSome_iff_exists.mp h
      unfold extract_log_info at hg
      obtain ⟨g', hs, -⟩ := Option.map_eq_some'.mp hg
      obtain ⟨pre, rest, hdec, hq⟩ := searchLog_sound _ _ hs
      obtain ⟨mtd, path, proto, st, sz, post, hr, h1, h2, h3, h4, h5, h6,
        h7, h8, h9, -⟩ := matchQuoted_sound _ _ hq
      exact ⟨pre, mtd, path, proto, st, sz, post, by rw [hdec, hr],
        h1, h2, h3, h4, h5, h6, h7, h8, h9⟩
    · rintro ⟨pre, mtd, path, proto, st, sz, post, hdec,
        h1, h2, h3, h4, h5, h6, h7, h8, h9⟩
      have hs := searchLog_isSome pre _
        (matchQuoted_isSome mtd path proto st sz post h1 h2 h3 h4 h5 h6 h7 h8 h9)
      obtain ⟨v, hv⟩ := Option.isSome_iff_exists.mp hs
      simp [extract_log_info, hdec, hv]
  · intro pre mtd path proto st sz post hpre hm hmn hpa hpan hp hpn hst hstd hsz hpost
    unfold extract_log_info
    show ((searchLog (pre ++ '"' :: (mtd ++ ' ' :: (path ++ ' ' ::
        (proto ++ '"' :: ' ' :: (st ++ ' ' :: (sz ++ post))))))).map _) = _
    rw [searchLog_skip pre _ hpre, searchLog, if_pos rfl,
      matchQuoted_pos mtd path proto st sz post hm hmn hpa hpan hp hpn hst hstd hsz hpost]
    rfl

/-- Closed instance of C1: the end-to-end example line of the spec. -/
theorem extract_log_info_correct_witness :
    extract_log_info "\"GET /foo?x=1 HTTP/1.1\" 200 1234" =
      some { method := "GET", url := "/foo", status := 200, size := 1234 } := by
  have h := extract_log_info_correct.2 []
    ['G', 'E', 'T'] ['/', 'f', 'o', 'o', '?', 'x', '=', '1']
    ['H', 'T', 'T', 'P', '/', '1', '.', '1'] ['2', '0', '0']
    ['1', '2', '3', '4'] []
    (by decide) (by decide) (by decide) (by decide) (by decide) (by decide)
    (by decide) (by decide) (by decide) (by decide) (by decide)
  exact h.trans (by decide)

/-! ### The simulation state

Embedding of the state owned by LogVisualizer.run: constants from the
configuration block, the ball constructor, the queue drain loop, the
reap pass, and the R-key reset.  Times and coordinates are rationals;
the random draws of the Python code are explicit parameters. -/

/-- Maximum number of balls on screen at once (line 21). -/
def MAX_BALLS : Nat := 100

/-- Screen height in pixels (line 18). -/
def SCREEN_HEIGHT : ℚ := 800

/-- Width of the physics area on the left (line 19). -/
def MAIN_AREA_WIDTH : ℚ := 850

/-- Width of the funnel bottom opening (line 23). -/
def FUNNEL_END_WIDTH : ℚ := 150

/-- X-coordinate of the funnel center (line 24). -/
def FUNNEL_CENTER_X : ℚ := MAIN_AREA_WIDTH / 2

/-- Left edge of the funnel bottom opening (line 25). -/
def FUNNEL_OPENING_LEFT : ℚ := FUNNEL_CENTER_X - FUNNEL_END_WIDTH / 2

/-- Right edge of the funnel bottom opening (line 26). -/
def FUNNEL_OPENING_RIGHT : ℚ := FUNNEL_CENTER_X + FUNNEL_END_WIDTH / 2

/-- Minimum spacing between lines in the info panel (line 29). -/
def MIN_LINE_SPACING : ℚ := 20

/-- Height of the scrollable url area (line 30). -/
def SCROLL_AREA_HEIGHT : ℚ := SCREEN_HEIGHT - 100

/-- Maximum ball radius (line 34). -/
def MAX_BALL_RADIUS : ℚ := 60

/-- Seconds after which balls are despawned (line 37). -/
def DESPAWN_TIME : ℚ := 10

/-- Base horizontal spawn velocity (line 38). -/
def BALL_SPAWN_VX : ℚ := -250

/-- Shape variant assigned to a ball (lines 185-232). -/
inductive ShapeKind where
  | arrow
  | cross
  | square
  | circle
  deriving Repr, DecidableEq

/-- Tags for the items a ball registers with the pymunk space:
its body and, per shape variant, its collision shapes. -/
inductive SpaceTag where
  | body
  | mainShape
  | arrowShape
  | crossShape1
  | crossShape2
  deriving Repr, DecidableEq

/-- The random draws consumed by one Ball construction (color choice,
vertical spawn jitter, velocity jitter), threaded as parameters. -/
structure RandDraw where
  colorIdx : Nat
  jy : ℚ
  jvx : ℚ
  jvy : ℚ
  deriving Repr, DecidableEq

/-- Color palette of the visualizer (lines 86-89). -/
def colors : List (Nat × Nat × Nat) :=
  [(255, 0, 0), (0, 255, 0), (0, 0, 255),
   (255, 255, 0), (255, 0, 255), (0, 255, 255)]

/-- Radius computation of Ball.__init__ (lines 168-180): scale by size
over the largest size seen if that is positive, clamp to the maximum
radius, then override with the fixed minimum for 404, POST and
DELETE. -/
def ballRadius (maxSeen : Nat) (e : LogEvent) : ℚ :=
  let base : ℚ :=
    if 0 < maxSeen then
      15 + min ((e.size : ℚ) / (maxSeen : ℚ)) 1 * (MAX_BALL_RADIUS - 15)
    else 15
  let clamped := min base MAX_BALL_RADIUS
  if e.status = 404 ∨ e.method = "POST" ∨ e.method = "DELETE" then 15 else clamped

/-- Modelled from the spec: the radius formula of section 4.3 with the
positivity guard removed, used to state that the guard's else branch is
unreachable. -/
def ballRadiusPos (maxSeen : Nat) (e : LogEvent) : ℚ :=
  let base : ℚ := 15 + min ((e.size : ℚ) / (maxSeen : ℚ)) 1 * (MAX_BALL_RADIUS - 15)
  let clamped := min base MAX_BALL_RADIUS
  if e.status = 404 ∨ e.method = "POST" ∨ e.method = "DELETE" then 15 else clamped

/-- A live simulated object (class Ball, lines 156-254).  The position
is the (mutable) body position; spawn_time is the wall-clock time at
construction. -/
structure Ball where
  url : String
  status : Nat
  size : Nat
  method : String
  color : Nat × Nat × Nat
  spawn_time : ℚ
  radius : ℚ
  mass : ℚ
  shape : ShapeKind
  pos : ℚ × ℚ
  vel : ℚ × ℚ
  bodyId : Nat
  deriving Repr, DecidableEq

/-- Ball construction from a log event (Ball.__init__): radius from the
size scaling, mass radius squared except for the fixed-mass POST and
DELETE shapes, shape variant by method then status, spawn position at
the top right with random vertical jitter, spawn velocity with random
jitter. -/
def mkBall (t : ℚ) (r : RandDraw) (maxSeen : Nat) (id : Nat) (e : LogEvent) : Ball :=
  let radius := ballRadius maxSeen e
  { url := e.url
    status := e.status
    size := e.size
    method := e.method
    color := colors.getD (r.colorIdx % colors.length) (0, 0, 0)
    spawn_time := t
    radius := radius
    mass := if e.method ≠ "POST" ∧ e.method ≠ "DELETE" then radius ^ 2 else 1
    shape :=
      if e.method = "POST" then .arrow
      else if e.method = "DELETE" then .cross
      else if e.status = 404 then .square
      else .circle
    pos := (MAIN_AREA_WIDTH - 20 - radius, r.jy)
    vel := (BALL_SPAWN_VX + r.jvx, r.jvy)
    bodyId := id }

/-- The items a ball registers with the physics space (lines 248-253):
its body plus the shapes of its variant. -/
def ballEntries (b : Ball) : List (Nat × SpaceTag) :=
  if b.method = "POST" then [(b.bodyId, .body), (b.bodyId, .arrowShape)]
  else if b.method = "DELETE" then
    [(b.bodyId, .body), (b.bodyId, .crossShape1), (b.bodyId, .crossShape2)]
  else [(b.bodyId, .body), (b.bodyId, .mainShape)]

/-- The mutable state of LogVisualizer.run that the claims concern. -/
structure SimState where
  queue : List LogEvent
  balls : List Ball
  space : List (Nat × SpaceTag)
  max_size_seen : Nat
  recent_urls : List (String × Nat)
  url_positions : List (String × Nat × ℚ)
  nextId : Nat
  deriving Repr, DecidableEq

/-- Initial state of LogVisualizer.__init__ (lines 80-85). -/
def initState : SimState :=
  { queue := [], balls := [], space := [], max_size_seen := 1000,
    recent_urls := [], url_positions := [], nextId := 0 }

/-- Per-event update of the scrolling url list (lines 284-295): shift
every entry down by the line spacing, drop entries at or past the
scroll area height, and append the new entry at the top position 20. -/
def pushUrl (e : LogEvent) (ups : List (String × Nat × ℚ)) :
    List (String × Nat × ℚ) :=
  let shifted := ups.map fun p => (p.1, p.2.1, p.2.2 + MIN_LINE_SPACING)
  let kept := shifted.filter fun p => decide (p.2.2 < SCROLL_AREA_HEIGHT)
  kept ++ [(e.url, e.size, 20)]

/-- One iteration of the drain loop body (lines 279-295): construct the
ball with the PREVIOUS largest size seen, register it, then update the
largest size seen, the recent urls, and the url positions. -/
def consumeEvent (t : ℚ) (r : RandDraw) (s : SimState) (e : LogEvent) : SimState :=
  let b := mkBall t r s.max_size_seen s.nextId e
  { s with
    balls := s.balls ++ [b]
    space := s.space ++ ballEntries b
    max_size_seen := max s.max_size_seen e.size
    recent_urls := s.recent_urls ++ [(e.url, e.size)]
    url_positions := pushUrl e s.url_positions
    nextId := s.nextId + 1 }

/-- The drain loop (lines 278-295): while the queue is nonempty and the
ball count is below the cap, dequeue and consume; the unconsumed suffix
stays in the queue. -/
def drainAux (t : ℚ) (rand : Nat → RandDraw) :
    List LogEvent → SimState → SimState
  | [], s => { s with queue := [] }
  | e :: q', s =>
    if s.balls.length < MAX_BALLS then
      drainAux t rand q' (consumeEvent t (rand s.nextId) s e)
    else { s with queue := e :: q' }

/-- Drain the whole queue of a state. -/
def drainQueue (t : ℚ) (rand : Nat → RandDraw) (s : SimState) : SimState :=
  drainAux t rand s.queue s

/-- The R-key reset (lines 273-275). -/
def resetScale (s : SimState) : SimState := { s with max_size_seen := 1000 }

/-- Why the reap pass removed a ball. -/
inductive RemovalReason where
  | exitFunnel
  | despawn
  deriving Repr, DecidableEq

/-- Classification of one ball by the reap pass (lines 304-324): first
the funnel-exit test (below the screen and horizontally within the
opening, bounds inclusive), then, only if that fails, the despawn
test. -/
def reapClassify (t : ℚ) (b : Ball) : Option RemovalReason :=
  if b.pos.2 > SCREEN_HEIGHT ∧
      FUNNEL_OPENING_LEFT ≤ b.pos.1 ∧ b.pos.1 ≤ FUNNEL_OPENING_RIGHT then
    some .exitFunnel
  else if t - b.spawn_time > DESPAWN_TIME then some .despawn
  else none

/-- The reap pass (lines 303-324): iterate over a copy of the ball
list, remove every classified ball from the live list and deregister
its body and shapes from the space. -/
def stepAndReap (t : ℚ) (s : SimState) : SimState :=
  let removed := s.balls.filter fun b => (reapClassify t b).isSome
  { s with
    balls := s.balls.filter fun b => (reapClassify t b).isNone
    space := s.space.filter fun en => removed.all fun b => b.bodyId != en.1 }

/-- The operations of the render loop that touch the simulation state:
producer enqueue, queue drain, physics position update (the black-box
solver moves every body), reap, and the R-key reset. -/
inductive Op where
  | enqueue (e : LogEvent)
  | drain (t : ℚ) (rand : Nat → RandDraw)
  | physics (f : Ball → ℚ × ℚ)
  | reap (t : ℚ)
  | reset

/-- Application of one operation to the state. -/
def applyOp (s : SimState) : Op → SimState
  | .enqueue e => { s with queue := s.queue ++ [e] }
  | .drain t rand => drainQueue t rand s
  | .physics f => { s with balls := s.balls.map fun b => { b with pos := f b } }
  | .reap t => stepAndReap t s
  | .reset => resetScale s

/-- A reachable state: the initial state after any operation
sequence. -/
def applyOps (ops : List Op) : SimState := ops.foldl applyOp initState

/-- The url list produced by consuming a sequence of events starting
from an empty panel. -/
def pushAll (es : List LogEvent) : List (String × Nat × ℚ) :=
  es.foldl (fun acc e => pushUrl e acc) []

/-- Modelled from the spec (amended): closed form of the url panel
after consuming a list of events from empty.  The entry of an event
with k later events sits at offset 20 * (k + 1) and is present exactly
when that offset is below the scroll area height. -/
def expectedPositions : List LogEvent → List (String × Nat × ℚ)
  | [] => []
  | e :: rest =>
    (if (20 : ℚ) * (rest.length + 1) < SCROLL_AREA_HEIGHT then
      [(e.url, e.size, (20 : ℚ) * (rest.length + 1))]
    else []) ++ expectedPositions rest

/-! ### Simulation lemmas -/

/-- Consuming an event appends exactly one ball. -/
theorem consumeEvent_balls_length (t : ℚ) (r : RandDraw) (s : SimState) (e : LogEvent) :
    (consumeEvent t r s e).balls.length = s.balls.length + 1 := by
  simp [consumeEvent]

/-- Ball count after draining: the minimum of supply and cap. -/
theorem drainAux_length (t : ℚ) (rand : Nat → RandDraw) :
    ∀ (q : List LogEvent) (s : SimState), s.balls.length ≤ MAX_BALLS →
      (drainAux t rand q s).balls.length = min (s.balls.length + q.length) MAX_BALLS := by
  intro q
  induction q with
  | nil => intro s h; simp only [drainAux, List.length_nil, Nat.add_zero]; omega
  | cons e q' ih =>
    intro s h
    rw [drainAux]
    by_cases hlt : s.balls.length < MAX_BALLS
    · rw [if_pos hlt, ih _ (by rw [consumeEvent_balls_length]; omega),
        consumeEvent_balls_length]
      simp only [List.length_cons]
      omega
    · rw [if_neg hlt]
      simp only [List.length_cons]
      omega

/-- Draining conserves events: balls gained plus queue left equals
balls before plus events supplied. -/
theorem drainAux_conserve (t : ℚ) (rand : Nat → RandDraw) :
    ∀ (q : List LogEvent) (s : SimState),
      (drainAux t rand q s).balls.length + (drainAux t rand q s).queue.length =
        s.balls.length + q.length := by
  intro q
  induction q with
  | nil => intro s; simp [drainAux]
  | cons e q' ih =>
    intro s
    rw [drainAux]
    by_cases hlt : s.balls.length < MAX_BALLS
    · rw [if_pos hlt, ih]
      rw [consumeEvent_balls_length]
      simp only [List.length_cons]
      omega
    · rw [if_neg hlt]

/-- At or above the cap the drain loop does not run. -/
theorem drainAux_at_cap (t : ℚ) (rand : Nat → RandDraw)
    (q : List LogEvent) (s : SimState) (h : MAX_BALLS ≤ s.balls.length) :
    drainAux t rand q s = { s with queue := q } := by
  cases q with
  | nil => rfl
  | cons e q' => rw [drainAux, if_neg (by omega)]

/-- At or above the cap the whole drain is the identity. -/
theorem drainQueue_at_cap (t : ℚ) (rand : Nat → RandDraw)
    (s : SimState) (h : MAX_BALLS ≤ s.balls.length) :
    drainQueue t rand s = s := by
  rw [drainQueue, drainAux_at_cap t rand s.queue s h]

/-- Draining never decreases the largest size seen. -/
theorem drainAux_max_mono (t : ℚ) (rand : Nat → RandDraw) :
    ∀ (q : List LogEvent) (s : SimState),
      s.max_size_seen ≤ (drainAux t rand q s).max_size_seen := by
  intro q
  induction q with
  | nil => intro s; exact Nat.le_refl _
  | cons e q' ih =>
    intro s
    rw [drainAux]
    by_cases hlt : s.balls.length < MAX_BALLS
    · rw [if_pos hlt]
      exact Nat.le_trans (Nat.le_max_left _ _) (ih (consumeEvent t (rand s.nextId) s e))
    · rw [if_neg hlt]

/-- Every operation preserves the floor 1000 of the largest size
seen. -/
theorem applyOp_max_floor (s : SimState) (o : Op) (h : 1000 ≤ s.max_size_seen) :
    1000 ≤ (applyOp s o).max_size_seen := by
  cases o with
  | enqueue e => exact h
  | drain t rand => exact Nat.le_trans h (drainAux_max_mono t rand s.queue s)
  | physics f => exact h
  | reap t => exact h
  | reset => exact Nat.le_refl _

/-- The floor 1000 holds after any operation sequence from any state
satisfying it. -/
theorem foldl_max_floor :
    ∀ (ops : List Op) (s : SimState), 1000 ≤ s.max_size_seen →
      1000 ≤ (ops.foldl applyOp s).max_size_seen := by
  intro ops
  induction ops with
  | nil => intro s h; exact h
  | cons o rest ih => intro s h; exact ih _ (applyOp_max_floor s o h)

/-- The reap pass classifies a despawn-eligible ball as removable. -/
theorem reapClassify_isSome_of_age (t : ℚ) (b : Ball)
    (hage : t - b.spawn_time > DESPAWN_TIME) : (reapClassify t b).isSome := by
  unfold reapClassify
  by_cases hexit : b.pos.2 > SCREEN_HEIGHT ∧
      FUNNEL_OPENING_LEFT ≤ b.pos.1 ∧ b.pos.1 ≤ FUNNEL_OPENING_RIGHT
  · rw [if_pos hexit]; rfl
  · rw [if_neg hexit, if_pos hage]; rfl

/-- A classified ball is gone from the live list and its registrations
are gone from the space. -/
theorem reap_removes (t : ℚ) (s : SimState) (b : Ball)
    (hb : b ∈ s.balls) (hcls : (reapClassify t b).isSome) :
    b ∉ (stepAndReap t s).balls ∧
      ∀ en ∈ (stepAndReap t s).space, en.1 ≠ b.bodyId := by
  constructor
  · intro hmem
    rw [stepAndReap] at hmem
    simp only [List.mem_filter] at hmem
    rw [Option.isNone_iff_eq_none] at hmem
    rw [Option.isSome_iff_exists] at hcls
    obtain ⟨v, hv⟩ := hcls
    rw [hmem.2] at hv
    exact Option.noConfusion hv
  · intro en hen
    rw [stepAndReap] at hen
    simp only [List.mem_filter] at hen
    have hball : b ∈ s.balls.filter fun b' => (reapClassify t b').isSome :=
      List.mem_filter.mpr ⟨hb, hcls⟩
    have := List.all_eq_true.mp hen.2 b hball
    simp only [bne_iff_ne, ne_eq] at this
    exact fun hcon => this hcon.symm

/-- Unfolding of the expected url panel on a cons. -/
theorem expectedPositions_cons (e : LogEvent) (rest : List LogEvent) :
    expectedPositions (e :: rest) =
      (if (20 : ℚ) * (rest.length + 1) < SCROLL_AREA_HEIGHT then
        [(e.url, e.size, (20 : ℚ) * (rest.length + 1))]
      else []) ++ expectedPositions rest := rfl

/-- The url update distributes over an append of panels. -/
theorem pushUrl_append (e : LogEvent) (l1 l2 : List (String × Nat × ℚ)) :
    pushUrl e (l1 ++ l2) =
      ((l1.map fun p => (p.1, p.2.1, p.2.2 + MIN_LINE_SPACING)).filter
        fun p => decide (p.2.2 < SCROLL_AREA_HEIGHT)) ++ pushUrl e l2 := by
  simp only [pushUrl, List.map_append, List.filter_append, List.append_assoc]

/-- Appending one consumed event to the expected panel is one url
update. -/
theorem expectedPositions_snoc (es : List LogEvent) (e : LogEvent) :
    expectedPositions (es ++ [e]) = pushUrl e (expectedPositions es) := by
  induction es with
  | nil =>
    show expectedPositions [e] = pushUrl e []
    rw [expectedPositions_cons,
      if_pos (by norm_num [SCROLL_AREA_HEIGHT, SCREEN_HEIGHT] :
        (20 : ℚ) * ((List.length ([] : List LogEvent) : ℚ) + 1) < SCROLL_AREA_HEIGHT)]
    show [(e.url, e.size, (20 : ℚ) * ((List.length ([] : List LogEvent) : ℚ) + 1))] ++ [] =
      [] ++ [(e.url, e.size, (20 : ℚ))]
    norm_num
  | cons a rest ih =>
    rw [List.cons_append, expectedPositions_cons, expectedPositions_cons, ih,
      pushUrl_append]
    congr 1
    have hlen : (((rest ++ [e]).length : ℚ) + 1) = ((rest.length : ℚ) + 1) + 1 := by
      push_cast [List.length_append, List.length_cons, List.length_nil]
      ring
    rw [hlen]
    have hval : (20 : ℚ) * ((rest.length : ℚ) + 1) + MIN_LINE_SPACING =
        20 * (((rest.length : ℚ) + 1) + 1) := by
      norm_num [MIN_LINE_SPACING]
      ring
    by_cases h1 : (20 : ℚ) * ((rest.length : ℚ) + 1) < SCROLL_AREA_HEIGHT
    · rw [if_pos h1]
      simp only [List.map_cons, List.map_nil, List.filter_cons, List.filter_nil]
      rw [hval]
      by_cases h2 : (20 : ℚ) * (((rest.length : ℚ) + 1) + 1) < SCROLL_AREA_HEIGHT
      · rw [if_pos h2, decide_eq_true h2, if_pos rfl]
      · rw [if_neg h2, decide_eq_false h2]
        simp
    · rw [if_neg h1]
      simp only [List.map_nil, List.filter_nil]
      rw [if_neg]
      intro h2
      apply h1
      have h20 : (0 : ℚ) < 20 := by norm_num
      nlinarith

/-! ### Claim theorems -/

/-- C2: the drain loop never raises the ball count above the cap: the
count after draining is the minimum of supply and cap, at capacity the
drain is a no-op (nothing dequeued, nothing spawned), and draining 101
queued events into an empty state yields exactly 100 live balls. -/
theorem drain_respects_cap (t : ℚ) (rand : Nat → RandDraw) (s : SimState)
    (h : s.balls.length ≤ MAX_BALLS) :
    (drainQueue t rand s).balls.length =
      min (s.balls.length + s.queue.length) MAX_BALLS
    ∧ (s.balls.length = MAX_BALLS → drainQueue t rand s = s)
    ∧ (s.balls = [] → s.queue.length = 101 →
        (drainQueue t rand s).balls.length = 100) := by
  refine ⟨drainAux_length t rand s.queue s h, ?_, ?_⟩
  · intro hful
    exact drainQueue_at_cap t rand s (by omega)
  · intro hnil h101
    rw [drainQueue, drainAux_length t rand s.queue s h, h101, hnil]
    rfl

/-- Sample event for the concrete instances. -/
def sampleEvent : LogEvent := { method := "GET", url := "/x", status := 200, size := 0 }

/-- Sample random draw for the concrete instances. -/
def sampleDraw : RandDraw := ⟨0, 30, 0, 0⟩

/-- Sample random stream for the concrete instances. -/
def sampleRand : Nat → RandDraw := fun _ => sampleDraw

/-- State holding 101 queued events and no balls. -/
def capTestState : SimState := { initState with queue := List.replicate 101 sampleEvent }

/-- Closed instance of C2: draining 101 events with cap 100 leaves
exactly 100 live balls. -/
theorem drain_respects_cap_witness :
    (drainQueue 0 sampleRand capTestState).balls.length = 100 :=
  (drain_respects_cap 0 sampleRand capTestState (by decide)).2.2 rfl (by decide)

/-- State at the ball cap with one event waiting in the queue. -/
def fullState : SimState :=
  { initState with
    balls := List.replicate 100 (mkBall 0 sampleDraw 1000 0 sampleEvent)
    queue := [{ method := "GET", url := "/y", status := 200, size := 7 }] }

/-- Refutation of C3 as stated: with the live count at the cap, the
waiting event is NOT discarded; it stays in the unbounded queue, and
once the reap pass frees capacity a later drain consumes it and spawns
its ball. -/
theorem queue_not_dropped_counterexample :
    (drainQueue 0 sampleRand fullState).queue =
      [{ method := "GET", url := "/y", status := 200, size := 7 }]
    ∧ (drainQueue 0 sampleRand
        (stepAndReap 11 (drainQueue 0 sampleRand fullState))).balls.length = 1 := by
  have hcap : MAX_BALLS ≤ fullState.balls.length := by
    simp [fullState, initState, MAX_BALLS]
  have h1 : drainQueue 0 sampleRand fullState = fullState :=
    drainQueue_at_cap 0 sampleRand fullState hcap
  refine ⟨by rw [h1]; rfl, ?_⟩
  rw [h1]
  have hreap : (stepAndReap 11 fullState).balls = [] := by
    rw [stepAndReap]
    rw [List.filter_eq_nil_iff]
    intro b hbmem
    have hb : b = mkBall 0 sampleDraw 1000 0 sampleEvent :=
      List.eq_of_mem_replicate hbmem
    subst hb
    have hs : (reapClassify 11 (mkBall 0 sampleDraw 1000 0 sampleEvent)).isSome := by
      apply reapClassify_isSome_of_age
      show (11 : ℚ) - (mkBall 0 sampleDraw 1000 0 sampleEvent).spawn_time > DESPAWN_TIME
      norm_num [mkBall, DESPAWN_TIME]
    simp only [Option.isNone]
    rw [Option.isSome_iff_exists] at hs
    obtain ⟨v, hv⟩ := hs
    rw [hv]
    simp
  have hlen0 : (stepAndReap 11 fullState).balls.length = 0 := by rw [hreap]; rfl
  show (drainAux 0 sampleRand (stepAndReap 11 fullState).queue
    (stepAndReap 11 fullState)).balls.length = 1
  rw [drainAux_length 0 sampleRand _ _ (by rw [hlen0]; exact Nat.zero_le _), hlen0]
  have hq : (stepAndReap 11 fullState).queue.length = 1 := rfl
  rw [hq]
  rfl

/-- C3 amended: events beyond the capacity cap are retained, not
dropped: draining conserves the total of live balls and queued events,
and at or above the cap the drain leaves the state (queue included)
untouched, so the excess events remain buffered for later frames. -/
theorem excess_events_buffered (t : ℚ) (rand : Nat → RandDraw) (s : SimState) :
    (drainQueue t rand s).balls.length + (drainQueue t rand s).queue.length =
      s.balls.length + s.queue.length
    ∧ (MAX_BALLS ≤ s.balls.length → drainQueue t rand s = s) :=
  ⟨drainAux_conserve t rand s.queue s, drainQueue_at_cap t rand s⟩

/-- Closed instance of the amended C3: at the cap the drain keeps the
queued event. -/
theorem excess_events_buffered_witness :
    drainQueue 0 sampleRand fullState = fullState :=
  (excess_events_buffered 0 sampleRand fullState).2 (by decide)

/-- C4: once a live ball's age exceeds the despawn timeout, the next
reap pass removes it from the live list and deregisters its body and
shapes from the space, regardless of its position. -/
theorem despawn_removes (t : ℚ) (s : SimState) (b : Ball)
    (hb : b ∈ s.balls) (hage : t - b.spawn_time > DESPAWN_TIME) :
    b ∉ (stepAndReap t s).balls ∧
      ∀ en ∈ (stepAndReap t s).space, en.1 ≠ b.bodyId :=
  reap_removes t s b hb (reapClassify_isSome_of_age t b hage)

/-- A ball spawned at time 0. -/
def oldBall : Ball := mkBall 0 sampleDraw 1000 5 sampleEvent

/-- State holding only the old ball. -/
def oldBallState : SimState :=
  { initState with balls := [oldBall], space := ballEntries oldBall }

/-- Closed instance of C4: a ball of age 11 is reaped. -/
theorem despawn_removes_witness :
    oldBall ∉ (stepAndReap 11 oldBallState).balls :=
  (despawn_removes 11 oldBallState oldBall
    (by simp [oldBallState])
    (by norm_num [oldBall, mkBall, DESPAWN_TIME])).1

/-- C5: a ball below the screen bottom and strictly inside the funnel
opening is removed (and deregistered) by that reap pass; a ball whose
horizontal position is outside the opening bounds is never removed by
the exit rule, and is removed exactly when its age exceeds the despawn
timeout. -/
theorem funnel_exit_rule (t : ℚ) (s : SimState) (b : Ball) (hb : b ∈ s.balls) :
    (b.pos.2 > SCREEN_HEIGHT → FUNNEL_OPENING_LEFT < b.pos.1 →
      b.pos.1 < FUNNEL_OPENING_RIGHT →
      b ∉ (stepAndReap t s).balls ∧
        ∀ en ∈ (stepAndReap t s).space, en.1 ≠ b.bodyId)
    ∧ (¬(FUNNEL_OPENING_LEFT ≤ b.pos.1 ∧ b.pos.1 ≤ FUNNEL_OPENING_RIGHT) →
      reapClassify t b ≠ some RemovalReason.exitFunnel
      ∧ (b ∉ (stepAndReap t s).balls ↔ t - b.spawn_time > DESPAWN_TIME)) := by
  constructor
  · intro hy hx1 hx2
    apply reap_removes t s b hb
    unfold reapClassify
    rw [if_pos ⟨hy, le_of_lt hx1, le_of_lt hx2⟩]
    rfl
  · intro hout
    have hexit : ¬(b.pos.2 > SCREEN_HEIGHT ∧
        FUNNEL_OPENING_LEFT ≤ b.pos.1 ∧ b.pos.1 ≤ FUNNEL_OPENING_RIGHT) :=
      fun hcon => hout ⟨hcon.2.1, hcon.2.2⟩
    refine ⟨?_, ?_, ?_⟩
    · unfold reapClassify
      rw [if_neg hexit]
      by_cases hage : t - b.spawn_time > DESPAWN_TIME
      · rw [if_pos hage]
        intro hcon
        exact RemovalReason.noConfusion (Option.some.inj hcon)
      · rw [if_neg hage]
        intro hcon
        exact Option.noConfusion hcon
    · intro hnot
      by_contra hage
      have hcls : reapClassify t b = none := by
        unfold reapClassify
        rw [if_neg hexit, if_neg hage]
      apply hnot
      rw [stepAndReap]
      exact List.mem_filter.mpr ⟨hb, by rw [hcls]; rfl⟩
    · intro hage
      exact (reap_removes t s b hb (reapClassify_isSome_of_age t b hage)).1

/-- A ball placed below the screen inside the funnel opening. -/
def exitBall : Ball := { mkBall 0 sampleDraw 1000 7 sampleEvent with pos := (400, 900) }

/-- State holding only the exiting ball. -/
def exitBallState : SimState :=
  { initState with balls := [exitBall], space := ballEntries exitBall }

/-- Closed instance of C5: the funnel exit removes the ball at once. -/
theorem funnel_exit_rule_witness :
    exitBall ∉ (stepAndReap 0 exitBallState).balls :=
  ((funnel_exit_rule 0 exitBallState exitBall (by simp [exitBallState])).1
    (by norm_num [exitBall, SCREEN_HEIGHT])
    (by norm_num [exitBall, FUNNEL_OPENING_LEFT, FUNNEL_CENTER_X, MAIN_AREA_WIDTH,
      FUNNEL_END_WIDTH])
    (by norm_num [exitBall, FUNNEL_OPENING_RIGHT, FUNNEL_CENTER_X, MAIN_AREA_WIDTH,
      FUNNEL_END_WIDTH])).1

/-- Refutation of C6 as stated: after consuming one event into an empty
panel the new entry sits at vertical position 20 (one line height), not
at offset 0. -/
theorem activity_offset_counterexample :
    pushUrl { method := "GET", url := "/a", status := 200, size := 5 } [] =
      [("/a", 5, (20 : ℚ))]
    ∧ pushUrl { method := "GET", url := "/a", status := 200, size := 5 } [] ≠
      [("/a", 5, (0 : ℚ))] := by
  constructor
  · decide
  · decide

/-- C6 amended: each consumed event performs one url-panel update
(shift every entry down one line height, drop entries at or past the
scroll height, append the new entry at position 20), so after any
sequence of consumed events from an empty panel the entry of an event
with k later events sits at offset 20 * (k + 1) and survives exactly
while that offset is below the scroll height. -/
theorem activity_offsets_amended :
    (∀ (t : ℚ) (r : RandDraw) (s : SimState) (e : LogEvent),
      (consumeEvent t r s e).url_positions = pushUrl e s.url_positions)
    ∧ ∀ es : List LogEvent, pushAll es = expectedPositions es := by
  refine ⟨fun t r s e => rfl, ?_⟩
  intro es
  induction es using List.reverseRecOn with
  | nil => rfl
  | append_singleton es e ih =>
    rw [pushAll, List.foldl_append, List.foldl_cons, List.foldl_nil,
      expectedPositions_snoc]
    show pushUrl e (pushAll es) = _
    rw [ih]

/-- C7: a spawned ball's radius is the fixed minimum 15 for POST,
DELETE and 404 events; otherwise, with a positive largest-size-seen, it
is the minimum plus the capped linear scale of the size; and it never
exceeds the maximum radius. -/
theorem ball_radius_spec (t : ℚ) (r : RandDraw) (m i : Nat) (e : LogEvent) :
    ((e.status = 404 ∨ e.method = "POST" ∨ e.method = "DELETE") →
      ballRadius m e = 15)
    ∧ (¬(e.status = 404 ∨ e.method = "POST" ∨ e.method = "DELETE") → 0 < m →
      ballRadius m e =
        15 + min ((e.size : ℚ) / (m : ℚ)) 1 * (MAX_BALL_RADIUS - 15))
    ∧ ballRadius m e ≤ MAX_BALL_RADIUS
    ∧ (mkBall t r m i e).radius = ballRadius m e := by
  refine ⟨?_, ?_, ?_, rfl⟩
  · intro hover
    show (if e.status = 404 ∨ e.method = "POST" ∨ e.method = "DELETE" then (15 : ℚ)
        else min (if 0 < m then
            15 + min ((e.size : ℚ) / (m : ℚ)) 1 * (MAX_BALL_RADIUS - 15)
          else 15) MAX_BALL_RADIUS) = 15
    rw [if_pos hover]
  · intro hover hm
    show (if e.status = 404 ∨ e.method = "POST" ∨ e.method = "DELETE" then (15 : ℚ)
        else min (if 0 < m then
            15 + min ((e.size : ℚ) / (m : ℚ)) 1 * (MAX_BALL_RADIUS - 15)
          else 15) MAX_BALL_RADIUS) = _
    rw [if_neg hover, if_pos hm]
    apply min_eq_left
    have hmin : min ((e.size : ℚ) / (m : ℚ)) 1 ≤ 1 := min_le_right _ _
    have hnn : (0 : ℚ) ≤ MAX_BALL_RADIUS - 15 := by norm_num [MAX_BALL_RADIUS]
    have h2 : min ((e.size : ℚ) / (m : ℚ)) 1 * (MAX_BALL_RADIUS - 15) ≤
        1 * (MAX_BALL_RADIUS - 15) := mul_le_mul_of_nonneg_right hmin hnn
    norm_num [MAX_BALL_RADIUS] at h2 ⊢
    linarith
  · show (if e.status = 404 ∨ e.method = "POST" ∨ e.method = "DELETE" then (15 : ℚ)
        else min (if 0 < m then
            15 + min ((e.size : ℚ) / (m : ℚ)) 1 * (MAX_BALL_RADIUS - 15)
          else 15) MAX_BALL_RADIUS) ≤ MAX_BALL_RADIUS
    by_cases hover : e.status = 404 ∨ e.method = "POST" ∨ e.method = "DELETE"
    · rw [if_pos hover]
      norm_num [MAX_BALL_RADIUS]
    · rw [if_neg hover]
      exact min_le_right _ _

/-- Event with a size half the default scaling floor. -/
def scaledEvent : LogEvent := { method := "GET", url := "/d", status := 200, size := 500 }

/-- Closed instance of C7: the scaled-radius branch at size 500 over
floor 1000. -/
theorem ball_radius_spec_witness :
    ballRadius 1000 scaledEvent =
      15 + min ((scaledEvent.size : ℚ) / (1000 : ℚ)) 1 * (MAX_BALL_RADIUS - 15) :=
  (ball_radius_spec 0 sampleDraw 1000 0 scaledEvent).2.1 (by decide) (by decide)

/-- C8: the largest size seen never decreases across a drain, each
consumed event updates it to the maximum with the event size, and the
R-key reset sets it back to the floor 1000 while leaving the live balls
and the queue (and hence everything but future radius scaling)
unchanged. -/
theorem max_size_seen_evolution (t : ℚ) (rand : Nat → RandDraw) (r : RandDraw)
    (s : SimState) (e : LogEvent) :
    s.max_size_seen ≤ (drainQueue t rand s).max_size_seen
    ∧ (consumeEvent t r s e).max_size_seen = max s.max_size_seen e.size
    ∧ (resetScale s).max_size_seen = 1000
    ∧ (resetScale s).balls = s.balls
    ∧ (resetScale s).queue = s.queue :=
  ⟨drainAux_max_mono t rand s.queue s, rfl, rfl, rfl, rfl⟩

/-- C9: the reap pass checks the funnel exit first: a ball eligible for
both exit and despawn in the same pass is classified as a funnel exit,
and a despawn classification can only arise for balls that failed the
exit check. -/
theorem exit_checked_first :
    (∀ (t : ℚ) (b : Ball),
      (b.pos.2 > SCREEN_HEIGHT ∧ FUNNEL_OPENING_LEFT ≤ b.pos.1 ∧
        b.pos.1 ≤ FUNNEL_OPENING_RIGHT) →
      t - b.spawn_time > DESPAWN_TIME →
      reapClassify t b = some RemovalReason.exitFunnel)
    ∧ ∀ (t : ℚ) (b : Ball), reapClassify t b = some RemovalReason.despawn →
      ¬(b.pos.2 > SCREEN_HEIGHT ∧ FUNNEL_OPENING_LEFT ≤ b.pos.1 ∧
        b.pos.1 ≤ FUNNEL_OPENING_RIGHT) := by
  constructor
  · intro t b hexit _
    unfold reapClassify
    rw [if_pos hexit]
  · intro t b hcls hexit
    unfold reapClassify at hcls
    rw [if_pos hexit] at hcls
    exact RemovalReason.noConfusion (Option.some.inj hcls)

/-- A ball eligible for both funnel exit and despawn at time 11. -/
def bothBall : Ball := { mkBall 0 sampleDraw 1000 9 sampleEvent with pos := (400, 900) }

/-- Closed instance of C9: the doubly eligible ball is classified as a
funnel exit. -/
theorem exit_checked_first_witness :
    reapClassify 11 bothBall = some RemovalReason.exitFunnel :=
  exit_checked_first.1 11 bothBall
    (by norm_num [bothBall, SCREEN_HEIGHT, FUNNEL_OPENING_LEFT, FUNNEL_OPENING_RIGHT,
      FUNNEL_CENTER_X, MAIN_AREA_WIDTH, FUNNEL_END_WIDTH])
    (by norm_num [bothBall, mkBall, DESPAWN_TIME])

/-- C10: in every reachable state the largest size seen is at least
1000 (initialized to 1000, only raised by maxima, reset exactly to
1000), hence nonzero as a rational, so the radius division never
divides by zero and the zero-guard's else branch is unreachable: the
guarded radius equals the guard-free radius. -/
theorem scale_guard_unreachable (ops : List Op) :
    1000 ≤ (applyOps ops).max_size_seen
    ∧ ((applyOps ops).max_size_seen : ℚ) ≠ 0
    ∧ ∀ e, ballRadius (applyOps ops).max_size_seen e =
        ballRadiusPos (applyOps ops).max_size_seen e := by
  have h : 1000 ≤ (applyOps ops).max_size_seen :=
    foldl_max_floor ops initState (Nat.le_refl 1000)
  refine ⟨h, ?_, ?_⟩
  · exact Nat.cast_ne_zero.mpr (by omega)
  · intro e
    have hm : 0 < (applyOps ops).max_size_seen := by omega
    show (if e.status = 404 ∨ e.method = "POST" ∨ e.method = "DELETE" then (15 : ℚ)
        else min (if 0 < (applyOps ops).max_size_seen then
            15 + min ((e.size : ℚ) / (((applyOps ops).max_size_seen : Nat) : ℚ)) 1 *
              (MAX_BALL_RADIUS - 15)
          else 15) MAX_BALL_RADIUS) =
      (if e.status = 404 ∨ e.method = "POST" ∨ e.method = "DELETE" then (15 : ℚ)
        else min (15 + min ((e.size : ℚ) / (((applyOps ops).max_size_seen : Nat) : ℚ)) 1 *
            (MAX_BALL_RADIUS - 15)) MAX_BALL_RADIUS)
    rw [if_pos hm]

end LogViz
